import Mathlib

/-!
Shallow embedding of the dungeon-level generator of `src/map.rs` and proofs
about it. The generator's own code (`make_map`, `place_objects`, `is_blocked`,
`Rect`, `from_dungeon_level`, the carve functions and their constants) is
translated from the source file. The entity/tile records it manipulates
(`Object`, `Tile`, `Fighter`, ...) live in the crate root, which is not part
of the given sources; those are modelled from the spec and marked as such.

Randomness: the source draws from `thread_rng`. The embedding threads an
explicit stream of raw draws (`RNG`, a list of naturals, exhausted to 0) and
maps each draw into the requested range exactly where the source calls
`gen_range` / `sample` / `random`, so every run of the source corresponds to
some stream and vice versa.
-/

set_option maxRecDepth 4000

namespace Roguelike

/-- Modelled from the spec: a tile has `blocked`, `explored` and
`block_sight` flags; the two canonical variants are `wall` (blocked) and
`empty` (passable). The record itself is defined in the crate root, outside
the given sources. -/
structure Tile where
  blocked : Bool
  block_sight : Bool
  explored : Bool
deriving DecidableEq

/-- Modelled from the spec: the all-blocked canonical tile. -/
def Tile.wall : Tile := ⟨true, true, false⟩

/-- Modelled from the spec: the passable canonical tile. -/
def Tile.empty : Tile := ⟨false, false, false⟩

/-- Modelled from the spec: the display colors the generator uses; the real
type comes from the tcod crate, outside the given sources. -/
inductive Color where
  | white
  | violet
  | lightYellow
  | sky
  | desaturatedGreen
  | darkerGreen
deriving DecidableEq

/-- Modelled from the spec: an AI behavior tag (only the basic one is used
by the generator). Defined in the crate root, outside the given sources. -/
inductive Ai where
  | Basic
deriving DecidableEq

/-- Modelled from the spec: the on-death callback tag carried by combat
stats. Defined in the crate root, outside the given sources. -/
inductive DeathCallback where
  | Monster
deriving DecidableEq

/-- From the usage in `src/map.rs`: the item type tags. The enum itself is
defined in the crate root, outside the given sources. -/
inductive Item where
  | Heal
  | Lightning
  | Fireball
  | Confuse
  | Sword
  | Shield
deriving DecidableEq

/-- Modelled from the spec: an equipment slot. Defined in the crate root,
outside the given sources. -/
inductive Slot where
  | RightHand
  | LeftHand
deriving DecidableEq

/-- Modelled from the spec: combat stats, with the field set used by
`src/map.rs`. Defined in the crate root, outside the given sources. -/
structure Fighter where
  base_max_hp : Int
  hp : Int
  base_defense : Int
  base_power : Int
  xp : Int
  on_death : DeathCallback
deriving DecidableEq

/-- Modelled from the spec: equipment data (slot assignment and stat
bonuses). Defined in the crate root, outside the given sources. -/
structure Equipment where
  equipped : Bool
  slot : Slot
  max_hp_bonus : Int
  power_bonus : Int
  defense_bonus : Int
deriving DecidableEq

/-- Modelled from the spec: an entity record — position, glyph, name,
display color, blocking flag, visibility override, aliveness, and the
optional combat/AI/item/equipment tags. Defined in the crate root, outside
the given sources. -/
structure Object where
  x : Int
  y : Int
  char : Char
  name : String
  color : Color
  blocks : Bool
  always_visible : Bool
  alive : Bool
  fighter : Option Fighter
  ai : Option Ai
  item : Option Item
  equipment : Option Equipment
deriving DecidableEq

/-- Modelled from the spec: `Object::new` fills position, glyph, name, color
and the blocking flag; every optional tag starts empty, visibility override
and aliveness start false. -/
def Object.new (x y : Int) (char : Char) (name : String) (color : Color) (blocks : Bool) :
    Object :=
  ⟨x, y, char, name, color, blocks, false, false, none, none, none, none⟩

/-- Modelled from the spec: an entity's position. -/
def Object.pos (o : Object) : Int × Int := (o.x, o.y)

/-- Modelled from the spec: reposition an entity, leaving every other field
unchanged. -/
def Object.set_pos (o : Object) (x y : Int) : Object := { o with x := x, y := y }

/-- Modelled from the spec: index 0 of the entity collection is reserved for
the player (`PLAYER` is defined in the crate root, outside the given
sources). -/
def PLAYER : Nat := 0

-- size of the map (src/map.rs)
def MAP_WIDTH : Int := 80
def MAP_HEIGHT : Int := 43

-- parameters for dungeon generator (src/map.rs)
def ROOM_MAX_SIZE : Int := 10
def ROOM_MIN_SIZE : Int := 6
def MAX_ROOMS : Nat := 30

/-- `pub type Map = Vec<Vec<Tile>>`, indexed `map[x][y]`. The embedding uses
a total function on coordinates; every access the generator performs is
in-bounds (out-of-range access is a fatal programming error per the spec). -/
abbrev Map : Type := Int → Int → Tile

/-- Point update of the grid: `map[x][y] = t`. -/
def setTile (m : Map) (x y : Int) (t : Tile) : Map :=
  fun a b => if a = x ∧ b = y then t else m a b

/-- The integers of the half-open Rust range `lo..hi`. -/
def int_range (lo hi : Int) : List Int :=
  (List.range (hi - lo).toNat).map (fun i => lo + Int.ofNat i)

/-- The explicit stream of raw random draws standing in for `thread_rng`;
an exhausted stream keeps yielding 0. -/
abbrev RNG : Type := List Nat

/-- Take the next raw draw from the stream. -/
def RNG.next (r : RNG) : Nat × RNG :=
  match r with
  | [] => (0, [])
  | n :: rest => (n, rest)

/-- `thread_rng().gen_range(lo..hi)` on integers: the raw draw reduced into
the half-open range (callers guarantee `lo < hi`). -/
def gen_range_int (lo hi : Int) (raw : Nat) : Int :=
  lo + ((raw % (hi - lo).toNat : Nat) : Int)

/-- `thread_rng().gen_range(lo..hi)` on naturals. -/
def gen_range_nat (lo hi raw : Nat) : Nat :=
  lo + raw % (hi - lo)

/-- Walk the cumulative weights: the index a reduced draw selects. -/
def weighted_pick : List Nat → Nat → Nat
  | [], _ => 0
  | w :: ws, r => if r < w then 0 else 1 + weighted_pick ws (r - w)

/-- `WeightedIndex::new(weights)` followed by `.sample`: the raw draw is
reduced modulo the total weight and selects an index by cumulative walk
(construction fails only when every weight is zero, which the generator's
weight tables rule out: their first weights are the constants 80 and 35). -/
def weighted_index (weights : List Nat) (raw : Nat) : Nat :=
  weighted_pick weights (raw % weights.sum)

/-- A rectangle on the map, used to characterise a room (src/map.rs). -/
structure Rect where
  x1 : Int
  y1 : Int
  x2 : Int
  y2 : Int
deriving DecidableEq

/-- `Rect::new` (src/map.rs). -/
def Rect.new (x y w h : Int) : Rect := ⟨x, y, x + w, y + h⟩

/-- `Rect::center` (src/map.rs): integer division truncating toward zero,
as Rust's `/` on `i32` does. -/
def Rect.center (r : Rect) : Int × Int :=
  (Int.tdiv (r.x1 + r.x2) 2, Int.tdiv (r.y1 + r.y2) 2)

/-- `Rect::intersects_with` (src/map.rs). -/
def Rect.intersects_with (a other : Rect) : Bool :=
  decide (a.x1 ≤ other.x2) && decide (a.x2 ≥ other.x1) &&
    decide (a.y1 ≤ other.y2) && decide (a.y2 ≥ other.y1)

/-- `create_room` (src/map.rs): make every tile strictly inside the
rectangle passable. -/
def create_room (room : Rect) (m : Map) : Map :=
  (int_range (room.x1 + 1) room.x2).foldl
    (fun m x => (int_range (room.y1 + 1) room.y2).foldl
      (fun m y => setTile m x y Tile.empty) m) m

/-- `create_h_tunnel` (src/map.rs). -/
def create_h_tunnel (x1 x2 y : Int) (m : Map) : Map :=
  (int_range (min x1 x2) (max x1 x2 + 1)).foldl (fun m x => setTile m x y Tile.empty) m

/-- `create_v_tunnel` (src/map.rs). -/
def create_v_tunnel (y1 y2 x : Int) (m : Map) : Map :=
  (int_range (min y1 y2) (max y1 y2 + 1)).foldl (fun m y => setTile m x y Tile.empty) m

/-- A level/value step entry (src/map.rs `Transition`). -/
structure Transition where
  level : Nat
  value : Nat
deriving DecidableEq

/-- `from_dungeon_level` (src/map.rs): scan the table back to front and
return the value of the first entry (from the back) whose level the current
level reaches; default 0. -/
def from_dungeon_level (table : List Transition) (level : Nat) : Nat :=
  match table.reverse.find? (fun transition => decide (level ≥ transition.level)) with
  | some transition => transition.value
  | none => 0

/-- `is_blocked` (src/map.rs). -/
def is_blocked (x y : Int) (map : Map) (objects : List Object) : Bool :=
  if (map x y).blocked then
    true
  else
    objects.any (fun object => object.blocks && decide (object.pos = (x, y)))

/-- The orc built by `place_objects` (src/map.rs). -/
def mk_orc (x y : Int) : Object :=
  { Object.new x y 'o' "orc" Color.desaturatedGreen true with
    fighter := some ⟨20, 20, 0, 4, 35, DeathCallback.Monster⟩,
    ai := some Ai.Basic }

/-- The troll built by `place_objects` (src/map.rs). -/
def mk_troll (x y : Int) : Object :=
  { Object.new x y 'T' "troll" Color.darkerGreen true with
    fighter := some ⟨30, 30, 2, 8, 100, DeathCallback.Monster⟩,
    ai := some Ai.Basic }

/-- The per-type item construction of `place_objects` (src/map.rs). -/
def mk_item (choice : Item) (x y : Int) : Object :=
  match choice with
  | Item.Heal =>
      { Object.new x y '!' "healing potion" Color.violet false with item := some Item.Heal }
  | Item.Lightning =>
      { Object.new x y '#' "scroll of lightning bolt" Color.lightYellow false with
        item := some Item.Lightning }
  | Item.Fireball =>
      { Object.new x y '#' "scroll of fireball" Color.lightYellow false with
        item := some Item.Fireball }
  | Item.Confuse =>
      { Object.new x y '#' "scroll of confusion" Color.lightYellow false with
        item := some Item.Confuse }
  | Item.Sword =>
      { Object.new x y '/' "sword" Color.sky false with
        item := some Item.Sword,
        equipment := some ⟨false, Slot.RightHand, 0, 3, 0⟩ }
  | Item.Shield =>
      { Object.new x y '[' "shield" Color.sky false with
        item := some Item.Shield,
        equipment := some ⟨false, Slot.LeftHand, 0, 0, 1⟩ }

/-- `item_choices` (src/map.rs). -/
def item_choices : List Item :=
  [Item.Heal, Item.Lightning, Item.Fireball, Item.Confuse, Item.Sword, Item.Shield]

/-- One iteration of the monster loop of `place_objects` (src/map.rs): draw
a spot strictly inside the room; if the spot is not blocked, sample the
weighted monster type, build it, mark it alive and push it (a blocked spot
is skipped, not retried). -/
def monster_step (room : Rect) (map : Map) (troll_chance : Nat) (objects : List Object)
    (rng : RNG) : List Object × RNG :=
  let r1 := RNG.next rng
  let r2 := RNG.next r1.2
  let x := gen_range_int (room.x1 + 1) room.x2 r1.1
  let y := gen_range_int (room.y1 + 1) room.y2 r2.1
  if is_blocked x y map objects then
    (objects, r2.2)
  else
    let r3 := RNG.next r2.2
    let monster :=
      if weighted_index [80, troll_chance] r3.1 = 0 then mk_orc x y else mk_troll x y
    (objects ++ [{ monster with alive := true }], r3.2)

/-- The monster loop of `place_objects` (src/map.rs): `num_monsters`
iterations of `monster_step`. -/
def monster_loop (room : Rect) (map : Map) (troll_chance : Nat) :
    Nat → List Object → RNG → List Object × RNG
  | 0, objects, rng => (objects, rng)
  | Nat.succ n, objects, rng =>
    let st := monster_step room map troll_chance objects rng
    monster_loop room map troll_chance n st.1 st.2

/-- One iteration of the item loop of `place_objects` (src/map.rs): draw a
spot strictly inside the room; if the spot is not blocked, sample the
weighted item type, build it, mark it always-visible and push it (a blocked
spot is skipped, not retried). -/
def item_step (room : Rect) (map : Map) (item_weights : List Nat) (objects : List Object)
    (rng : RNG) : List Object × RNG :=
  let r1 := RNG.next rng
  let r2 := RNG.next r1.2
  let x := gen_range_int (room.x1 + 1) room.x2 r1.1
  let y := gen_range_int (room.y1 + 1) room.y2 r2.1
  if is_blocked x y map objects then
    (objects, r2.2)
  else
    let r3 := RNG.next r2.2
    let item := mk_item (item_choices.getD (weighted_index item_weights r3.1) Item.Heal) x y
    (objects ++ [{ item with always_visible := true }], r3.2)

/-- The item loop of `place_objects` (src/map.rs): `num_items` iterations of
`item_step`. -/
def item_loop (room : Rect) (map : Map) (item_weights : List Nat) :
    Nat → List Object → RNG → List Object × RNG
  | 0, objects, rng => (objects, rng)
  | Nat.succ n, objects, rng =>
    let st := item_step room map item_weights objects rng
    item_loop room map item_weights n st.1 st.2

/-- `place_objects` (src/map.rs): the level-scaled monster count, the
weighted monster loop, then the level-scaled item count and the weighted
item loop. -/
def place_objects (room : Rect) (map : Map) (objects : List Object) (level : Nat)
    (rng : RNG) : List Object × RNG :=
  let max_monsters := from_dungeon_level [⟨1, 2⟩, ⟨4, 3⟩, ⟨6, 5⟩] level
  let r0 := RNG.next rng
  let num_monsters := gen_range_nat 0 (max_monsters + 1) r0.1
  let troll_chance := from_dungeon_level [⟨3, 15⟩, ⟨5, 30⟩, ⟨7, 60⟩] level
  let mres := monster_loop room map troll_chance num_monsters objects r0.2
  let max_items := from_dungeon_level [⟨1, 1⟩, ⟨4, 2⟩] level
  let item_weights :=
    [35,
     from_dungeon_level [⟨4, 25⟩] level,
     from_dungeon_level [⟨6, 25⟩] level,
     from_dungeon_level [⟨2, 10⟩] level,
     from_dungeon_level [⟨4, 5⟩] level,
     from_dungeon_level [⟨8, 15⟩] level]
  let r1 := RNG.next mres.2
  let num_items := gen_range_nat 0 (max_items + 1) r1.1
  item_loop room map item_weights num_items mres.1 r1.2

/-- `objects[PLAYER].set_pos(new_x, new_y)` with `PLAYER = 0`; at the call
site the collection is provably nonempty (checked on entry, only appended to
afterwards), so the empty case is unreachable. -/
def set_player_pos : List Object → Int → Int → List Object
  | [], _, _ => []
  | o :: rest, x, y => Object.set_pos o x y :: rest

/-- The generator's loop state: the grid, the entity collection, the
accepted rooms and the remaining randomness. -/
structure GenState where
  map : Map
  objects : List Object
  rooms : List Rect
  rng : RNG

/-- The acceptance body of `make_map`'s attempt loop (src/map.rs): carve the
room, populate it, position the player (first room) or tunnel to the
previous room's center with a coin-flipped bend order, and append the room
to the accepted list. -/
def accept_state (level : Nat) (s : GenState) (new_room : Rect) (rng : RNG) : GenState :=
  let map := create_room new_room s.map
  let po := place_objects new_room map s.objects level rng
  let c := new_room.center
  if s.rooms.isEmpty then
    { map := map, objects := set_player_pos po.1 c.1 c.2,
      rooms := s.rooms ++ [new_room], rng := po.2 }
  else
    let prev := (s.rooms.getLastD (Rect.new 0 0 0 0)).center
    let r5 := RNG.next po.2
    let map2 :=
      if r5.1 % 2 = 0 then
        create_v_tunnel prev.2 c.2 c.1 (create_h_tunnel prev.1 c.1 prev.2 map)
      else
        create_h_tunnel prev.1 c.1 c.2 (create_v_tunnel prev.2 c.2 prev.1 map)
    { map := map2, objects := po.1, rooms := s.rooms ++ [new_room], rng := r5.2 }

/-- One iteration of `make_map`'s attempt loop (src/map.rs): sample a room,
reject it when it intersects an accepted room, otherwise accept it. -/
def make_map_step (level : Nat) (s : GenState) : GenState :=
  let r1 := RNG.next s.rng
  let w := gen_range_int ROOM_MIN_SIZE (ROOM_MAX_SIZE + 1) r1.1
  let r2 := RNG.next r1.2
  let h := gen_range_int ROOM_MIN_SIZE (ROOM_MAX_SIZE + 1) r2.1
  let r3 := RNG.next r2.2
  let x := gen_range_int 0 (MAP_WIDTH - w) r3.1
  let r4 := RNG.next r3.2
  let y := gen_range_int 0 (MAP_HEIGHT - h) r4.1
  let new_room := Rect.new x y w h
  let failed := s.rooms.any (fun other_room => new_room.intersects_with other_room)
  if failed then
    { s with rng := r4.2 }
  else
    accept_state level s new_room r4.2

/-- The state after the whole attempt loop, starting from the all-wall grid
and the truncated entity collection holding only the player. -/
def make_map_state (player : Object) (level : Nat) (rng : RNG) : GenState :=
  (List.range MAX_ROOMS).foldl (fun s _ => make_map_step level s)
    ⟨fun _ _ => Tile.wall, [player], [], rng⟩

/-- The stairs placement's `rooms[rooms.len() - 1]` (src/map.rs): on an
empty list `rooms.len() - 1` underflows and the indexing aborts with the
language's own panic, modelled as the error value. -/
def last_room_center (rooms : List Rect) : Except String (Int × Int) :=
  match rooms.getLast? with
  | none => Except.error "attempt to subtract with overflow"
  | some room => Except.ok room.center

/-- Modelled from the spec: "implementations must guard with an explicit
check and fail fast with a clear error" — the stairs placement step guarded
by an explicit emptiness check with a dedicated error. -/
def last_room_center_guarded (rooms : List Rect) : Except String (Int × Int) :=
  if rooms.isEmpty then
    Except.error "no rooms were accepted"
  else
    match rooms.getLast? with
    | none => Except.error "no rooms were accepted"
    | some room => Except.ok room.center

/-- The body of `make_map` once the player is known: run the attempt loop,
then place the stairs at the center of the last accepted room,
always-visible and non-blocking. -/
def make_map_body (player : Object) (level : Nat) (rng : RNG) :
    Except String (Map × List Object) :=
  let s := make_map_state player level rng
  match last_room_center s.rooms with
  | Except.error e => Except.error e
  | Except.ok c =>
    let stairs := { Object.new c.1 c.2 '<' "stairs" Color.white false with
      always_visible := true }
    Except.ok (s.map, s.objects ++ [stairs])

/-- `make_map` (src/map.rs): check the player leads the collection (on an
empty collection `objects[PLAYER]` itself panics), truncate to the player —
discarding every other entry — and run the generation body. -/
def make_map (objects : List Object) (level : Nat) (rng : RNG) :
    Except String (Map × List Object) :=
  match objects with
  | [] => Except.error "index out of bounds: the len is 0"
  | player :: _ => make_map_body player level rng

/-- The entity collection a successful generation returns (empty on the
unreachable failure paths); a convenience projection for stating claims. -/
def resultObjects (e : Except String (Map × List Object)) : List Object :=
  match e with
  | Except.ok p => p.2
  | Except.error _ => []

/-- Modelled from the spec: a lookup where tables "not necessarily
pre-sorted by the caller" behave "as if sorted ascending by threshold" —
the table is insertion-sorted by threshold before the scan. -/
def insert_by_level (t : Transition) : List Transition → List Transition
  | [] => [t]
  | a :: rest =>
    if t.level ≤ a.level then t :: a :: rest else a :: insert_by_level t rest

/-- Modelled from the spec: ascending insertion sort by threshold. -/
def sort_by_level : List Transition → List Transition
  | [] => []
  | a :: rest => insert_by_level a (sort_by_level rest)

/-- Modelled from the spec: the lookup as the claim reads for unsorted
tables — sort ascending by threshold first, then take the last qualifying
entry. -/
def lookup_as_if_sorted (table : List Transition) (level : Nat) : Nat :=
  from_dungeon_level (sort_by_level table) level

/-! ## Lemmas about the level-scaled lookup -/

lemma find?_eq_head?_filter {α : Type} (p : α → Bool) :
    ∀ l : List α, l.find? p = (l.filter p).head? := by
  intro l
  induction l with
  | nil => rfl
  | cons a t ih =>
    by_cases h : p a = true
    · rw [List.find?_cons_of_pos _ h, List.filter_cons_of_pos h]
      rfl
    · rw [List.find?_cons_of_neg _ h, List.filter_cons_of_neg h]
      exact ih

lemma from_dungeon_level_eq_filter_getLast (table : List Transition) (level : Nat) :
    from_dungeon_level table level =
      match (table.filter (fun t => decide (level ≥ t.level))).getLast? with
      | some t => t.value
      | none => 0 := by
  unfold from_dungeon_level
  rw [find?_eq_head?_filter, List.filter_reverse, List.head?_reverse]

/-- `lookup` on the concrete table of the claim. -/
lemma from_dungeon_level_concrete (level : Nat) :
    from_dungeon_level [⟨1, 2⟩, ⟨4, 3⟩, ⟨6, 5⟩] level =
      if 6 ≤ level then 5 else if 4 ≤ level then 3 else if 1 ≤ level then 2 else 0 := by
  have hrev : ([⟨1, 2⟩, ⟨4, 3⟩, ⟨6, 5⟩] : List Transition).reverse =
      [⟨6, 5⟩, ⟨4, 3⟩, ⟨1, 2⟩] := rfl
  unfold from_dungeon_level
  rw [hrev]
  by_cases h6 : 6 ≤ level
  · rw [List.find?_cons_of_pos _ (by simpa using h6)]
    simp [h6]
  · rw [List.find?_cons_of_neg _ (by simpa using h6)]
    by_cases h4 : 4 ≤ level
    · rw [List.find?_cons_of_pos _ (by simpa using h4)]
      simp [h6, h4]
    · rw [List.find?_cons_of_neg _ (by simpa using h4)]
      by_cases h1 : 1 ≤ level
      · rw [List.find?_cons_of_pos _ (by simpa using h1)]
        simp [h6, h4, h1]
      · rw [List.find?_cons_of_neg _ (by simpa using h1)]
        simp [h6, h4, h1]

/-- C1 (corrected): `from_dungeon_level` returns the value of the last
entry, in the table's given order, whose threshold is ≤ the level, and 0
when no entry qualifies; on the pre-sorted table [(1,2),(4,3),(6,5)] that
yields 0 below level 1, then 2, 3 and 5 at thresholds 1, 4 and 6. (The
claim's further sentence — that a table not pre-sorted behaves as if sorted
ascending by threshold — is refuted by `c1_lookup_unsorted_cex`.) -/
theorem c1_lookup_last_qualifying (table : List Transition) (level : Nat) :
    (from_dungeon_level table level =
      match (table.filter (fun t => decide (level ≥ t.level))).getLast? with
      | some t => t.value
      | none => 0) ∧
    (from_dungeon_level [⟨1, 2⟩, ⟨4, 3⟩, ⟨6, 5⟩] level =
      if 6 ≤ level then 5 else if 4 ≤ level then 3 else if 1 ≤ level then 2 else 0) :=
  ⟨from_dungeon_level_eq_filter_getLast table level, from_dungeon_level_concrete level⟩

/-- C1's counterexample: on the unsorted table [(4,3),(1,2)] at level 5 the
code scans back to front in the *given* order and returns 2, while the
behave-as-if-sorted reading demands 3 — the two disagree, so tables not
pre-sorted do not behave as if sorted ascending by threshold. -/
theorem c1_lookup_unsorted_cex :
    Roguelike.from_dungeon_level [⟨4, 3⟩, ⟨1, 2⟩] 5 = 2 ∧
      Roguelike.lookup_as_if_sorted [⟨4, 3⟩, ⟨1, 2⟩] 5 = 3 ∧
      Roguelike.from_dungeon_level [⟨4, 3⟩, ⟨1, 2⟩] 5 ≠
        Roguelike.lookup_as_if_sorted [⟨4, 3⟩, ⟨1, 2⟩] 5 := by
  refine ⟨by decide, by decide, by decide⟩

/-! ## Rectangle geometry -/

/-- C2 (confirmed): `intersects_with` is true exactly when the four
inclusive bound comparisons all hold, so rectangles that merely touch on an
edge or corner count as intersecting. -/
theorem c2_intersects_with_iff (a b : Rect) :
    a.intersects_with b = true ↔
      (a.x1 ≤ b.x2 ∧ a.x2 ≥ b.x1 ∧ a.y1 ≤ b.y2 ∧ a.y2 ≥ b.y1) := by
  simp [Rect.intersects_with, and_assoc]

lemma intersects_with_comm (a b : Rect) :
    a.intersects_with b = b.intersects_with a := by
  simp only [Rect.intersects_with, ge_iff_le]
  by_cases h1 : a.x1 ≤ b.x2 <;> by_cases h2 : b.x1 ≤ a.x2 <;>
    by_cases h3 : a.y1 ≤ b.y2 <;> by_cases h4 : b.y1 ≤ a.y2 <;>
    simp [h1, h2, h3, h4]

/-! ## The blocking test -/

/-- C7 (confirmed): `is_blocked` is true exactly when the tile itself is
blocked or some blocking entity occupies the coordinate; it is a pure
function of the grid and the entity collection (the embedding has no other
effects), so on a wall tile it is true whatever the entities, and on a
passable tile it is true exactly when a blocking entity stands there. -/
theorem c7_is_blocked_iff (x y : Int) (map : Map) (objects : List Object) :
    is_blocked x y map objects = true ↔
      ((map x y).blocked = true ∨
        ∃ o ∈ objects, o.blocks = true ∧ o.pos = (x, y)) := by
  unfold is_blocked
  split
  · simp_all
  · simp_all [List.any_eq_true]

/-! ## Pointwise characterisation of the carve operations -/

lemma mem_int_range {y lo hi : Int} : y ∈ int_range lo hi ↔ lo ≤ y ∧ y < hi := by
  unfold int_range
  constructor
  · intro h
    obtain ⟨i, hi', hy⟩ := List.mem_map.mp h
    rw [List.mem_range] at hi'
    replace hy : lo + Int.ofNat i = y := hy
    simp only [Int.ofNat_eq_coe] at hy
    omega
  · intro h
    refine List.mem_map.mpr ⟨(y - lo).toNat, ?_, ?_⟩
    · rw [List.mem_range]
      omega
    · show lo + Int.ofNat (y - lo).toNat = y
      simp only [Int.ofNat_eq_coe]
      omega

lemma setTile_apply (m : Map) (x0 y0 : Int) (t : Tile) (x y : Int) :
    setTile m x0 y0 t x y = if x = x0 ∧ y = y0 then t else m x y := rfl

lemma foldl_col_apply (x0 : Int) (ys : List Int) :
    ∀ (m : Map) (x y : Int),
      (ys.foldl (fun m b => setTile m x0 b Tile.empty) m) x y =
        if x = x0 ∧ y ∈ ys then Tile.empty else m x y := by
  induction ys with
  | nil => intro m x y; simp
  | cons a t ih =>
    intro m x y
    rw [List.foldl_cons, ih]
    by_cases h1 : x = x0 <;> by_cases h2 : y ∈ t <;> by_cases h3 : y = a <;>
      simp [setTile_apply, List.mem_cons, h1, h2, h3]

lemma foldl_row_apply (y0 : Int) (xs : List Int) :
    ∀ (m : Map) (x y : Int),
      (xs.foldl (fun m a => setTile m a y0 Tile.empty) m) x y =
        if x ∈ xs ∧ y = y0 then Tile.empty else m x y := by
  induction xs with
  | nil => intro m x y; simp
  | cons a t ih =>
    intro m x y
    rw [List.foldl_cons, ih]
    by_cases h1 : x ∈ t <;> by_cases h2 : y = y0 <;> by_cases h3 : x = a <;>
      simp [setTile_apply, List.mem_cons, h1, h2, h3]

lemma foldl_rect_apply (ys : List Int) (xs : List Int) :
    ∀ (m : Map) (x y : Int),
      (xs.foldl (fun m a => ys.foldl (fun m b => setTile m a b Tile.empty) m) m) x y =
        if x ∈ xs ∧ y ∈ ys then Tile.empty else m x y := by
  induction xs with
  | nil => intro m x y; simp
  | cons a t ih =>
    intro m x y
    rw [List.foldl_cons, ih]
    by_cases h1 : x ∈ t <;> by_cases h2 : y ∈ ys <;> by_cases h3 : x = a <;>
      simp [foldl_col_apply, List.mem_cons, h1, h2, h3]

lemma create_room_apply (room : Rect) (m : Map) (x y : Int) :
    create_room room m x y =
      if (room.x1 + 1 ≤ x ∧ x < room.x2) ∧ (room.y1 + 1 ≤ y ∧ y < room.y2) then Tile.empty
      else m x y := by
  unfold create_room
  rw [foldl_rect_apply]
  simp only [mem_int_range]

lemma create_h_tunnel_apply (x1 x2 y0 : Int) (m : Map) (x y : Int) :
    create_h_tunnel x1 x2 y0 m x y =
      if (min x1 x2 ≤ x ∧ x < max x1 x2 + 1) ∧ y = y0 then Tile.empty else m x y := by
  unfold create_h_tunnel
  rw [foldl_row_apply]
  simp only [mem_int_range]

lemma create_v_tunnel_apply (y1 y2 x0 : Int) (m : Map) (x y : Int) :
    create_v_tunnel y1 y2 x0 m x y =
      if x = x0 ∧ (min y1 y2 ≤ y ∧ y < max y1 y2 + 1) then Tile.empty else m x y := by
  unfold create_v_tunnel
  rw [foldl_col_apply]
  simp only [mem_int_range]

/-- Every carve operation only paints `Tile.empty`; in particular each point
of the resulting grid is either freshly empty or untouched. -/
lemma create_room_mono (room : Rect) (m : Map) (x y : Int) :
    create_room room m x y = Tile.empty ∨ create_room room m x y = m x y := by
  rw [create_room_apply]
  split
  · exact Or.inl rfl
  · exact Or.inr rfl

lemma create_h_tunnel_mono (x1 x2 y0 : Int) (m : Map) (x y : Int) :
    create_h_tunnel x1 x2 y0 m x y = Tile.empty ∨ create_h_tunnel x1 x2 y0 m x y = m x y := by
  rw [create_h_tunnel_apply]
  split
  · exact Or.inl rfl
  · exact Or.inr rfl

lemma create_v_tunnel_mono (y1 y2 x0 : Int) (m : Map) (x y : Int) :
    create_v_tunnel y1 y2 x0 m x y = Tile.empty ∨ create_v_tunnel y1 y2 x0 m x y = m x y := by
  rw [create_v_tunnel_apply]
  split
  · exact Or.inl rfl
  · exact Or.inr rfl

lemma blocked_false_of_mono {m' m : Map} {x y : Int}
    (hmono : m' x y = Tile.empty ∨ m' x y = m x y)
    (h : (m x y).blocked = false) : (m' x y).blocked = false := by
  rcases hmono with h' | h'
  · rw [h']
    rfl
  · rw [h']
    exact h

/-! ## Bounds of the sampled rooms -/

lemma gen_range_int_lower (lo hi : Int) (raw : Nat) : lo ≤ gen_range_int lo hi raw := by
  unfold gen_range_int
  omega

lemma gen_range_int_upper (lo hi : Int) (raw : Nat) (h : lo < hi) :
    gen_range_int lo hi raw < hi := by
  unfold gen_range_int
  have h1 : raw % (hi - lo).toNat < (hi - lo).toNat := Nat.mod_lt _ (by omega)
  omega

/-- The bounds every accepted room satisfies: non-negative corner, width and
height between `ROOM_MIN_SIZE` and `ROOM_MAX_SIZE` inclusive. -/
def room_dims_ok (r : Rect) : Prop :=
  0 ≤ r.x1 ∧ 0 ≤ r.y1 ∧ r.x1 + 6 ≤ r.x2 ∧ r.x2 ≤ r.x1 + 10 ∧
    r.y1 + 6 ≤ r.y2 ∧ r.y2 ≤ r.y1 + 10

/-- The truncating-division center of a room with the generator's dimensions
lies strictly inside the carved interior. -/
lemma center_strict_of_dims (r : Rect) (h : room_dims_ok r) :
    r.x1 < r.center.1 ∧ r.center.1 < r.x2 ∧ r.y1 < r.center.2 ∧ r.center.2 < r.y2 := by
  obtain ⟨hx0, hy0, hx6, hx10, hy6, hy10⟩ := h
  unfold Rect.center
  simp only
  rw [Int.tdiv_eq_ediv (by omega) (by omega), Int.tdiv_eq_ediv (by omega) (by omega)]
  omega

/-! ## Lemmas about the placement loops -/

lemma foldl_invariant {σ α : Type} (f : σ → σ) (P : σ → Prop)
    (hf : ∀ s, P s → P (f s)) :
    ∀ (l : List α) (s : σ), P s → P (l.foldl (fun s _ => f s) s) := by
  intro l
  induction l with
  | nil => intro s hs; exact hs
  | cons a t ih =>
    intro s hs
    rw [List.foldl_cons]
    exact ih _ (hf s hs)

lemma is_blocked_eq_false {x y : Int} {map : Map} {objects : List Object}
    (h : is_blocked x y map objects = false) :
    ∀ o ∈ objects, ¬(o.blocks = true ∧ o.pos = (x, y)) := by
  unfold is_blocked at h
  split at h
  · exact absurd h (by simp)
  · intro o ho hcontra
    have := List.any_eq_false.mp h o ho
    simp only [Bool.and_eq_true, decide_eq_true_eq] at this
    exact this ⟨hcontra.1, hcontra.2⟩

/-- The names the placement loops ever give a created entity. -/
def placed_names : List String :=
  ["orc", "troll", "healing potion", "scroll of lightning bolt",
   "scroll of fireball", "scroll of confusion", "sword", "shield"]

lemma mk_item_blocks (choice : Item) (x y : Int) : (mk_item choice x y).blocks = false := by
  cases choice <;> rfl

lemma mk_item_name_mem (choice : Item) (x y : Int) :
    (mk_item choice x y).name ∈ placed_names := by
  cases choice <;> simp [mk_item, Object.new, placed_names]

/-- Entities never share a tile when both block. -/
def distinct_blocking (a b : Object) : Prop :=
  ¬(a.blocks = true ∧ b.blocks = true ∧ a.pos = b.pos)

/-- One monster iteration either leaves the collection alone (blocked spot)
or pushes a single blocking orc/troll whose tile no blocking entity of the
current collection occupies. -/
lemma monster_step_spec (room : Rect) (map : Map) (tc : Nat) (objects : List Object)
    (rng : RNG) :
    (monster_step room map tc objects rng).1 = objects ∨
    ∃ M, (monster_step room map tc objects rng).1 = objects ++ [M] ∧
      M.blocks = true ∧ M.name ∈ placed_names ∧
      ∀ o ∈ objects, ¬(o.blocks = true ∧ o.pos = M.pos) := by
  unfold monster_step
  simp only
  split
  · exact Or.inl rfl
  · next hb =>
    rw [Bool.not_eq_true] at hb
    refine Or.inr ⟨_, rfl, ?_, ?_, ?_⟩
    · split <;> rfl
    · split <;> simp [mk_orc, mk_troll, Object.new, placed_names]
    · intro o ho hcontra
      have hpos : ({ (if weighted_index [80, tc]
            (RNG.next (RNG.next (RNG.next rng).2).2).1 = 0 then
              mk_orc (gen_range_int (room.x1 + 1) room.x2 (RNG.next rng).1)
                (gen_range_int (room.y1 + 1) room.y2 (RNG.next (RNG.next rng).2).1)
            else
              mk_troll (gen_range_int (room.x1 + 1) room.x2 (RNG.next rng).1)
                (gen_range_int (room.y1 + 1) room.y2 (RNG.next (RNG.next rng).2).1)) with
          alive := true } : Object).pos =
          (gen_range_int (room.x1 + 1) room.x2 (RNG.next rng).1,
           gen_range_int (room.y1 + 1) room.y2 (RNG.next (RNG.next rng).2).1) := by
        split <;> rfl
      rw [hpos] at hcontra
      exact is_blocked_eq_false hb o ho hcontra

/-- One item iteration either leaves the collection alone (blocked spot) or
pushes a single non-blocking item with one of the six item names. -/
lemma item_step_spec (room : Rect) (map : Map) (ws : List Nat) (objects : List Object)
    (rng : RNG) :
    (item_step room map ws objects rng).1 = objects ∨
    ∃ M, (item_step room map ws objects rng).1 = objects ++ [M] ∧
      M.blocks = false ∧ M.name ∈ placed_names := by
  unfold item_step
  simp only
  split
  · exact Or.inl rfl
  · refine Or.inr ⟨_, rfl, ?_, ?_⟩
    · exact mk_item_blocks _ _ _
    · exact mk_item_name_mem _ _ _

lemma monster_loop_shape (room : Rect) (map : Map) (tc : Nat) :
    ∀ (n : Nat) (objects : List Object) (rng : RNG),
      ∃ new, (monster_loop room map tc n objects rng).1 = objects ++ new ∧
        ∀ o ∈ new, o.blocks = true ∧ o.name ∈ placed_names := by
  intro n
  induction n with
  | zero =>
    intro objects rng
    exact ⟨[], by simp [monster_loop], by simp⟩
  | succ n ih =>
    intro objects rng
    simp only [monster_loop]
    rcases monster_step_spec room map tc objects rng with h | ⟨M, hM, hb, hn, _⟩
    · rw [h]
      exact ih objects _
    · rw [hM]
      obtain ⟨new, g1, g2⟩ := ih (objects ++ [M]) (monster_step room map tc objects rng).2
      refine ⟨M :: new, by rw [g1, List.append_assoc, List.singleton_append], ?_⟩
      intro o ho
      rcases List.mem_cons.mp ho with rfl | ho'
      · exact ⟨hb, hn⟩
      · exact g2 o ho'

lemma item_loop_shape (room : Rect) (map : Map) (ws : List Nat) :
    ∀ (n : Nat) (objects : List Object) (rng : RNG),
      ∃ new, (item_loop room map ws n objects rng).1 = objects ++ new ∧
        ∀ o ∈ new, o.blocks = false ∧ o.name ∈ placed_names := by
  intro n
  induction n with
  | zero =>
    intro objects rng
    exact ⟨[], by simp [item_loop], by simp⟩
  | succ n ih =>
    intro objects rng
    simp only [item_loop]
    rcases item_step_spec room map ws objects rng with h | ⟨M, hM, hb, hn⟩
    · rw [h]
      exact ih objects _
    · rw [hM]
      obtain ⟨new, g1, g2⟩ := ih (objects ++ [M]) (item_step room map ws objects rng).2
      refine ⟨M :: new, by rw [g1, List.append_assoc, List.singleton_append], ?_⟩
      intro o ho
      rcases List.mem_cons.mp ho with rfl | ho'
      · exact ⟨hb, hn⟩
      · exact g2 o ho'

lemma place_objects_shape (room : Rect) (map : Map) (objects : List Object) (level : Nat)
    (rng : RNG) :
    ∃ new, (place_objects room map objects level rng).1 = objects ++ new ∧
      ∀ o ∈ new, o.name ∈ placed_names := by
  unfold place_objects
  dsimp only
  set TC := from_dungeon_level [⟨3, 15⟩, ⟨5, 30⟩, ⟨7, 60⟩] level with hTC
  set N1 := gen_range_nat 0 (from_dungeon_level [⟨1, 2⟩, ⟨4, 3⟩, ⟨6, 5⟩] level + 1)
    (RNG.next rng).1 with hN1
  set MRES := monster_loop room map TC N1 objects (RNG.next rng).2 with hMRES
  set WS := [35, from_dungeon_level [⟨4, 25⟩] level, from_dungeon_level [⟨6, 25⟩] level,
    from_dungeon_level [⟨2, 10⟩] level, from_dungeon_level [⟨4, 5⟩] level,
    from_dungeon_level [⟨8, 15⟩] level] with hWS
  set N2 := gen_range_nat 0 (from_dungeon_level [⟨1, 1⟩, ⟨4, 2⟩] level + 1)
    (RNG.next MRES.2).1 with hN2
  obtain ⟨new1, h1, h1p⟩ := monster_loop_shape room map TC N1 objects (RNG.next rng).2
  rw [← hMRES] at h1
  obtain ⟨new2, h2, h2p⟩ := item_loop_shape room map WS N2 (objects ++ new1)
    (RNG.next MRES.2).2
  rw [h1, h2, List.append_assoc]
  refine ⟨new1 ++ new2, rfl, ?_⟩
  intro o ho
  rcases List.mem_append.mp ho with ho' | ho'
  · exact (h1p o ho').2
  · exact (h2p o ho').2

/-! ## The placement loops never stack blocking entities -/

lemma pairwise_append_blocking {objects : List Object} {M : Object}
    (hp : objects.tail.Pairwise distinct_blocking)
    (hM : ∀ o ∈ objects, ¬(o.blocks = true ∧ o.pos = M.pos)) :
    (objects ++ [M]).tail.Pairwise distinct_blocking := by
  cases objects with
  | nil => simp [distinct_blocking]
  | cons p rest =>
    simp only [List.cons_append, List.tail_cons] at hp ⊢
    rw [List.pairwise_append]
    refine ⟨hp, List.pairwise_singleton _ _, ?_⟩
    intro a ha b hb
    rw [List.mem_singleton] at hb
    subst hb
    rintro ⟨hab, _, hpos⟩
    exact hM a (List.mem_cons_of_mem p ha) ⟨hab, hpos⟩

lemma pairwise_append_nonblocking {objects : List Object} {M : Object}
    (hp : objects.tail.Pairwise distinct_blocking) (hM : M.blocks = false) :
    (objects ++ [M]).tail.Pairwise distinct_blocking := by
  cases objects with
  | nil => simp [distinct_blocking]
  | cons p rest =>
    simp only [List.cons_append, List.tail_cons] at hp ⊢
    rw [List.pairwise_append]
    refine ⟨hp, List.pairwise_singleton _ _, ?_⟩
    intro a _ b hb
    rw [List.mem_singleton] at hb
    subst hb
    rintro ⟨_, hbb, _⟩
    rw [hM] at hbb
    exact Bool.false_ne_true hbb

lemma monster_loop_pairwise (room : Rect) (map : Map) (tc : Nat) :
    ∀ (n : Nat) (objects : List Object) (rng : RNG),
      objects.tail.Pairwise distinct_blocking →
      ((monster_loop room map tc n objects rng).1).tail.Pairwise distinct_blocking := by
  intro n
  induction n with
  | zero =>
    intro objects rng h
    simpa [monster_loop] using h
  | succ n ih =>
    intro objects rng h
    simp only [monster_loop]
    rcases monster_step_spec room map tc objects rng with heq | ⟨M, hM, _, _, hfree⟩
    · rw [heq]
      exact ih _ _ h
    · rw [hM]
      exact ih _ _ (pairwise_append_blocking h hfree)

lemma item_loop_pairwise (room : Rect) (map : Map) (ws : List Nat) :
    ∀ (n : Nat) (objects : List Object) (rng : RNG),
      objects.tail.Pairwise distinct_blocking →
      ((item_loop room map ws n objects rng).1).tail.Pairwise distinct_blocking := by
  intro n
  induction n with
  | zero =>
    intro objects rng h
    simpa [item_loop] using h
  | succ n ih =>
    intro objects rng h
    simp only [item_loop]
    rcases item_step_spec room map ws objects rng with heq | ⟨M, hM, hb, _⟩
    · rw [heq]
      exact ih _ _ h
    · rw [hM]
      exact ih _ _ (pairwise_append_nonblocking h hb)

lemma place_objects_pairwise (room : Rect) (map : Map) (objects : List Object) (level : Nat)
    (rng : RNG) (h : objects.tail.Pairwise distinct_blocking) :
    ((place_objects room map objects level rng).1).tail.Pairwise distinct_blocking := by
  unfold place_objects
  dsimp only
  exact item_loop_pairwise room map _ _ _ _ (monster_loop_pairwise room map _ _ _ _ h)

/-! ## The acceptance body and the attempt step -/

lemma set_player_pos_tail (objs : List Object) (x y : Int) :
    (set_player_pos objs x y).tail = objs.tail := by
  cases objs <;> rfl

lemma set_player_pos_cons (p : Object) (rest : List Object) (x y : Int) :
    set_player_pos (p :: rest) x y = Object.set_pos p x y :: rest := rfl

lemma mono_trans {m2 m1 m0 : Map} {x y : Int}
    (h2 : m2 x y = Tile.empty ∨ m2 x y = m1 x y)
    (h1 : m1 x y = Tile.empty ∨ m1 x y = m0 x y) :
    m2 x y = Tile.empty ∨ m2 x y = m0 x y := by
  rcases h2 with h | h
  · exact Or.inl h
  · rw [h]
    exact h1

lemma create_h_tunnel_empty {m : Map} {x y : Int} (x1 x2 y0 : Int)
    (h : m x y = Tile.empty) : create_h_tunnel x1 x2 y0 m x y = Tile.empty := by
  rcases create_h_tunnel_mono x1 x2 y0 m x y with h' | h'
  · exact h'
  · rw [h', h]

lemma create_v_tunnel_empty {m : Map} {x y : Int} (y1 y2 x0 : Int)
    (h : m x y = Tile.empty) : create_v_tunnel y1 y2 x0 m x y = Tile.empty := by
  rcases create_v_tunnel_mono y1 y2 x0 m x y with h' | h'
  · exact h'
  · rw [h', h]

lemma accept_state_rooms (level : Nat) (s : GenState) (new_room : Rect) (rng : RNG) :
    (accept_state level s new_room rng).rooms = s.rooms ++ [new_room] := by
  unfold accept_state
  dsimp only
  split
  · rfl
  · rfl

lemma accept_state_objects (level : Nat) (s : GenState) (new_room : Rect) (rng : RNG) :
    ∃ new, (∀ o ∈ new, o.name ∈ placed_names) ∧
      (s.objects.tail.Pairwise distinct_blocking →
        ((s.objects ++ new).tail.Pairwise distinct_blocking)) ∧
      ((s.rooms.isEmpty = true ∧
          (accept_state level s new_room rng).objects =
            set_player_pos (s.objects ++ new) new_room.center.1 new_room.center.2) ∨
       (s.rooms.isEmpty = false ∧
          (accept_state level s new_room rng).objects = s.objects ++ new)) := by
  unfold accept_state
  dsimp only
  obtain ⟨new, h1, h1p⟩ :=
    place_objects_shape new_room (create_room new_room s.map) s.objects level rng
  refine ⟨new, h1p, ?_, ?_⟩
  · intro hp
    have := place_objects_pairwise new_room (create_room new_room s.map) s.objects level rng hp
    rwa [h1] at this
  · split
    · next he => exact Or.inl ⟨he, by rw [← h1]⟩
    · next he =>
      refine Or.inr ⟨by rwa [Bool.not_eq_true] at he, ?_⟩
      rw [← h1]

lemma accept_state_map_mono (level : Nat) (s : GenState) (new_room : Rect) (rng : RNG)
    (x y : Int) :
    (accept_state level s new_room rng).map x y = Tile.empty ∨
      (accept_state level s new_room rng).map x y = s.map x y := by
  unfold accept_state
  dsimp only
  split
  · exact create_room_mono _ _ _ _
  · split
    · exact mono_trans (create_v_tunnel_mono _ _ _ _ _ _)
        (mono_trans (create_h_tunnel_mono _ _ _ _ _ _) (create_room_mono _ _ _ _))
    · exact mono_trans (create_h_tunnel_mono _ _ _ _ _ _)
        (mono_trans (create_v_tunnel_mono _ _ _ _ _ _) (create_room_mono _ _ _ _))

lemma accept_state_map_center (level : Nat) (s : GenState) (new_room : Rect) (rng : RNG)
    (hdims : room_dims_ok new_room) :
    (accept_state level s new_room rng).map new_room.center.1 new_room.center.2 =
      Tile.empty := by
  have hc := center_strict_of_dims new_room hdims
  have hbase : create_room new_room s.map new_room.center.1 new_room.center.2 =
      Tile.empty := by
    rw [create_room_apply, if_pos]
    exact ⟨⟨by omega, hc.2.1⟩, ⟨by omega, hc.2.2.2⟩⟩
  unfold accept_state
  dsimp only
  split
  · exact hbase
  · split
    · exact create_v_tunnel_empty _ _ _ (create_h_tunnel_empty _ _ _ hbase)
    · exact create_h_tunnel_empty _ _ _ (create_v_tunnel_empty _ _ _ hbase)

/-- Every attempt either only advances the randomness (a rejected candidate,
possible only when a room was already accepted) or accepts a freshly sampled
room that intersects no accepted room. -/
lemma make_map_step_eq (level : Nat) (s : GenState) :
    (∃ r, s.rooms ≠ [] ∧ make_map_step level s = { s with rng := r }) ∨
    (∃ new_room r, room_dims_ok new_room ∧
      (∀ other ∈ s.rooms, new_room.intersects_with other = false) ∧
      make_map_step level s = accept_state level s new_room r) := by
  unfold make_map_step
  dsimp only
  split
  · next hf =>
    refine Or.inl ⟨_, ?_, rfl⟩
    intro hnil
    rw [hnil] at hf
    simp at hf
  · next hf =>
    rw [Bool.not_eq_true, List.any_eq_false] at hf
    refine Or.inr ⟨_, _, ?_, ?_, rfl⟩
    · have hw1 := gen_range_int_lower ROOM_MIN_SIZE (ROOM_MAX_SIZE + 1) (RNG.next s.rng).1
      have hw2 := gen_range_int_upper ROOM_MIN_SIZE (ROOM_MAX_SIZE + 1) (RNG.next s.rng).1
        (by norm_num [ROOM_MIN_SIZE, ROOM_MAX_SIZE])
      have hh1 := gen_range_int_lower ROOM_MIN_SIZE (ROOM_MAX_SIZE + 1)
        (RNG.next (RNG.next s.rng).2).1
      have hh2 := gen_range_int_upper ROOM_MIN_SIZE (ROOM_MAX_SIZE + 1)
        (RNG.next (RNG.next s.rng).2).1 (by norm_num [ROOM_MIN_SIZE, ROOM_MAX_SIZE])
      have hx := gen_range_int_lower 0
        (MAP_WIDTH - gen_range_int ROOM_MIN_SIZE (ROOM_MAX_SIZE + 1) (RNG.next s.rng).1)
        (RNG.next (RNG.next (RNG.next s.rng).2).2).1
      have hy := gen_range_int_lower 0
        (MAP_HEIGHT - gen_range_int ROOM_MIN_SIZE (ROOM_MAX_SIZE + 1)
          (RNG.next (RNG.next s.rng).2).1)
        (RNG.next (RNG.next (RNG.next (RNG.next s.rng).2).2).2).1
      have h6 : (ROOM_MIN_SIZE : Int) = 6 := rfl
      have h11 : (ROOM_MAX_SIZE : Int) + 1 = 11 := rfl
      simp only [room_dims_ok, Rect.new]
      exact ⟨hx, hy, by omega, by omega, by omega, by omega⟩
    · intro other ho
      have := hf other ho
      rwa [Bool.not_eq_true] at this

/-! ## The loop invariant of the generator -/

/-- Everything the attempt loop maintains: accepted rooms are pairwise
non-intersecting, in bounds with generator dimensions, their centers carved
passable; the collection is the (possibly repositioned) player followed by
created content whose names are the placement names and whose blocking
members never share a tile. -/
def StateInv (player : Object) (s : GenState) : Prop :=
  s.rooms.Pairwise (fun a b => a.intersects_with b = false ∧ b.intersects_with a = false) ∧
  (∀ r ∈ s.rooms, room_dims_ok r) ∧
  (∀ r ∈ s.rooms, (s.map r.center.1 r.center.2).blocked = false) ∧
  ((s.rooms = [] ∧ s.objects = [player]) ∨
    (∃ f rs rest, s.rooms = f :: rs ∧
      s.objects = Object.set_pos player f.center.1 f.center.2 :: rest)) ∧
  (∀ o ∈ s.objects.tail, o.name ∈ placed_names) ∧
  s.objects.tail.Pairwise distinct_blocking

lemma StateInv_init (player : Object) (rng : RNG) :
    StateInv player ⟨fun _ _ => Tile.wall, [player], [], rng⟩ := by
  refine ⟨List.Pairwise.nil, by simp, by simp, Or.inl ⟨rfl, rfl⟩, by simp, by simp⟩

lemma StateInv_step (player : Object) (level : Nat) :
    ∀ s, StateInv player s → StateInv player (make_map_step level s) := by
  intro s hs
  obtain ⟨hpw, hdims, hcent, hhead, hnames, hblock⟩ := hs
  rcases make_map_step_eq level s with ⟨r, hne, heq⟩ | ⟨new_room, r, hnd, hni, heq⟩
  · rw [heq]
    exact ⟨hpw, hdims, hcent, hhead, hnames, hblock⟩
  · rw [heq]
    obtain ⟨new, hnew_names, hnew_pair, hcases⟩ := accept_state_objects level s new_room r
    have hrooms := accept_state_rooms level s new_room r
    obtain ⟨hd, tl, hsobj⟩ : ∃ hd tl, s.objects = hd :: tl := by
      rcases hhead with ⟨_, h⟩ | ⟨f, rs, rest, _, h⟩
      · exact ⟨player, [], h⟩
      · exact ⟨_, rest, h⟩
    have htail_app : (s.objects ++ new).tail = s.objects.tail ++ new := by
      rw [hsobj]
      rfl
    refine ⟨?_, ?_, ?_, ?_, ?_, ?_⟩
    · rw [hrooms, List.pairwise_append]
      refine ⟨hpw, List.pairwise_singleton _ _, ?_⟩
      intro a ha b hb
      rw [List.mem_singleton] at hb
      subst hb
      have h1 := hni a ha
      exact ⟨by rw [intersects_with_comm]; exact h1, h1⟩
    · rw [hrooms]
      intro rr hr
      rcases List.mem_append.mp hr with h | h
      · exact hdims rr h
      · rw [List.mem_singleton] at h
        subst h
        exact hnd
    · rw [hrooms]
      intro rr hr
      rcases List.mem_append.mp hr with h | h
      · exact blocked_false_of_mono (accept_state_map_mono level s new_room r _ _)
          (hcent rr h)
      · rw [List.mem_singleton] at h
        rw [h, accept_state_map_center level s new_room r hnd]
        rfl
    · rcases hhead with ⟨hre, hobj⟩ | ⟨f, rs, rest, hre, hobj⟩
      · rcases hcases with ⟨_, hobj'⟩ | ⟨hemp, _⟩
        · right
          refine ⟨new_room, [], new, ?_, ?_⟩
          · rw [hrooms, hre]
            rfl
          · rw [hobj', hobj]
            rfl
        · rw [hre] at hemp
          simp at hemp
      · rcases hcases with ⟨hemp, _⟩ | ⟨_, hobj'⟩
        · rw [hre] at hemp
          simp at hemp
        · right
          refine ⟨f, rs ++ [new_room], rest ++ new, ?_, ?_⟩
          · rw [hrooms, hre]
            rfl
          · rw [hobj', hobj]
            rfl
    · intro o ho
      rcases hcases with ⟨_, hobj'⟩ | ⟨_, hobj'⟩
      · rw [hobj', set_player_pos_tail, htail_app] at ho
        rcases List.mem_append.mp ho with h | h
        · exact hnames o h
        · exact hnew_names o h
      · rw [hobj', htail_app] at ho
        rcases List.mem_append.mp ho with h | h
        · exact hnames o h
        · exact hnew_names o h
    · have hp' := hnew_pair hblock
      rcases hcases with ⟨_, hobj'⟩ | ⟨_, hobj'⟩
      · rw [hobj', set_player_pos_tail]
        exact hp'
      · rw [hobj']
        exact hp'

lemma make_map_state_inv (player : Object) (level : Nat) (rng : RNG) :
    StateInv player (make_map_state player level rng) := by
  unfold make_map_state
  exact foldl_invariant _ _ (StateInv_step player level) _ _ (StateInv_init player rng)

lemma step_rooms_ne_nil (level : Nat) (s : GenState) : (make_map_step level s).rooms ≠ [] := by
  rcases make_map_step_eq level s with ⟨r, hne, heq⟩ | ⟨nr, r, _, _, heq⟩
  · rw [heq]
    exact hne
  · rw [heq, accept_state_rooms]
    simp

lemma foldl_rooms_ne_nil (level : Nat) :
    ∀ (l : List Nat) (s : GenState),
      (l.foldl (fun s _ => make_map_step level s) s).rooms = [] → l = [] ∧ s.rooms = [] := by
  intro l
  induction l with
  | nil =>
    intro s h
    exact ⟨rfl, h⟩
  | cons a t ih =>
    intro s h
    rw [List.foldl_cons] at h
    exact absurd (ih _ h).2 (step_rooms_ne_nil level s)

lemma make_map_state_rooms_ne_nil (player : Object) (level : Nat) (rng : RNG) :
    (make_map_state player level rng).rooms ≠ [] := by
  intro h
  unfold make_map_state at h
  have := (foldl_rooms_ne_nil level _ _ h).1
  simp [MAX_ROOMS, List.range_eq_nil] at this

/-- A generation call on a player-led collection always succeeds, returning
the loop's grid and its entities followed by the stairs at the center of the
last accepted room. -/
lemma make_map_ok (player : Object) (t : List Object) (level : Nat) (rng : RNG) :
    ∃ last, (make_map_state player level rng).rooms.getLast? = some last ∧
      make_map (player :: t) level rng =
        Except.ok ((make_map_state player level rng).map,
          (make_map_state player level rng).objects ++
            [{ Object.new last.center.1 last.center.2 '<' "stairs" Color.white false with
               always_visible := true }]) := by
  have hne := make_map_state_rooms_ne_nil player level rng
  obtain ⟨last, hlast⟩ : ∃ last, (make_map_state player level rng).rooms.getLast? = some last := by
    cases hL : (make_map_state player level rng).rooms.getLast? with
    | some l => exact ⟨l, rfl⟩
    | none => exact absurd (List.getLast?_eq_none_iff.mp hL) hne
  refine ⟨last, hlast, ?_⟩
  show make_map_body player level rng = _
  unfold make_map_body
  dsimp only
  unfold last_room_center
  rw [hlast]

lemma mem_of_getLast?_eq_some {α : Type} {l : List α} {a : α} (h : l.getLast? = some a) :
    a ∈ l := by
  have h' : a ∈ l.getLast? := h
  obtain ⟨hne, rfl⟩ := List.mem_getLast?_eq_getLast h'
  exact List.getLast_mem hne

/-! ## The claims about the generator -/

/-- C3 (confirmed): after any level-generation call the accepted rooms are
pairwise non-intersecting in both argument orders of the inclusive-edge
test; the loop maintains this by rejecting every candidate that intersects
an accepted room. -/
theorem c3_accepted_rooms_disjoint (player : Object) (level : Nat) (rng : RNG) :
    (make_map_state player level rng).rooms.Pairwise
      (fun a b => a.intersects_with b = false ∧ b.intersects_with a = false) :=
  (make_map_state_inv player level rng).1

/-- C4 (confirmed): a generation call always accepts at least one room, and
on return the entity at index 0 is the entry player repositioned to the
first accepted room's truncating-division center. -/
theorem c4_player_at_first_room_center (player : Object) (t : List Object) (level : Nat)
    (rng : RNG) :
    ∃ first rest m out,
      (make_map_state player level rng).rooms = first :: rest ∧
      make_map (player :: t) level rng = Except.ok (m, out) ∧
      out.head? = some (Object.set_pos player first.center.1 first.center.2) := by
  obtain ⟨last, hlast, hmk⟩ := make_map_ok player t level rng
  obtain ⟨_, _, _, hhead, _, _⟩ := make_map_state_inv player level rng
  rcases hhead with ⟨hre, _⟩ | ⟨f, rs, rest, hre, hobj⟩
  · exact absurd hre (make_map_state_rooms_ne_nil player level rng)
  · refine ⟨f, rs, _, _, hre, hmk, ?_⟩
    rw [hobj]
    rfl

/-- C5 (confirmed): after the attempt loop exactly one stairs entity is
appended; it sits at the last accepted room's center, is non-blocking and
always-visible, and (provided the entry player is not itself named
"stairs") no other returned entity is a stairs entity. -/
theorem c5_stairs_last_room (player : Object) (t : List Object) (level : Nat) (rng : RNG)
    (hname : player.name ≠ "stairs") :
    ∃ m out pre s last,
      make_map (player :: t) level rng = Except.ok (m, out) ∧
      (make_map_state player level rng).rooms.getLast? = some last ∧
      out = pre ++ [s] ∧ s.pos = last.center ∧ s.blocks = false ∧
      s.always_visible = true ∧ s.name = "stairs" ∧ ∀ o ∈ pre, o.name ≠ "stairs" := by
  obtain ⟨last, hlast, hmk⟩ := make_map_ok player t level rng
  obtain ⟨_, _, _, hhead, hnames, _⟩ := make_map_state_inv player level rng
  refine ⟨_, _, (make_map_state player level rng).objects, _, last, hmk, hlast, rfl,
    Prod.mk.eta, rfl, rfl, rfl, ?_⟩
  intro o ho
  rcases hhead with ⟨_, hobj⟩ | ⟨f, rs, rest, _, hobj⟩
  · rw [hobj] at ho
    rw [List.mem_singleton.mp ho]
    exact hname
  · have htl : (make_map_state player level rng).objects.tail = rest := by
      rw [hobj]
      rfl
    rw [hobj] at ho
    rcases List.mem_cons.mp ho with rfl | ho'
    · exact hname
    · have hmem := hnames o (htl ▸ ho')
      intro heq
      rw [heq] at hmem
      simp [placed_names] at hmem

/-- A concrete entry player for the closed instances. -/
def player_w : Object := Object.new 10 10 '@' "player" Color.white true

/-- C5's witness: the theorem applied to a concrete player, depth and
randomness stream. -/
theorem c5_stairs_last_room_witness :
    player_w.name ≠ "stairs" ∧
    ∃ m out pre s last,
      make_map [player_w] 1 [] = Except.ok (m, out) ∧
      (make_map_state player_w 1 []).rooms.getLast? = some last ∧
      out = pre ++ [s] ∧ s.pos = last.center ∧ s.blocks = false ∧
      s.always_visible = true ∧ s.name = "stairs" ∧ ∀ o ∈ pre, o.name ≠ "stairs" :=
  ⟨by decide, c5_stairs_last_room player_w [] 1 [] (by decide)⟩

/-- C6 (corrected): the zero-rooms situation the claim guards against cannot
arise — every call accepts at least one room (the first candidate passes the
emptiness check), so generation always returns successfully and the
unguarded indexing of the last room never faults. -/
theorem c6_rooms_never_empty (player : Object) (t : List Object) (level : Nat) (rng : RNG) :
    (make_map_state player level rng).rooms.isEmpty = false ∧
      ∃ m out, make_map (player :: t) level rng = Except.ok (m, out) := by
  obtain ⟨last, _, hmk⟩ := make_map_ok player t level rng
  refine ⟨?_, _, _, hmk⟩
  cases h : (make_map_state player level rng).rooms with
  | nil => exact absurd h (make_map_state_rooms_ne_nil player level rng)
  | cons a as => rfl

/-- C6's counterexample: on an empty accepted-room list the code's stairs
step aborts with the language's own underflow/bounds panic, not the
explicit-check "clear error" the claim describes — the two behaviours are
observably different, so the implementation does not guard the step with an
explicit check. -/
theorem c6_no_explicit_guard_cex :
    last_room_center [] = Except.error "attempt to subtract with overflow" ∧
    last_room_center_guarded [] = Except.error "no rooms were accepted" ∧
    last_room_center [] ≠ last_room_center_guarded [] := by
  refine ⟨rfl, rfl, fun h => ?_⟩
  have h' : (Except.error "attempt to subtract with overflow" : Except String (Int × Int)) =
      Except.error "no rooms were accepted" := h
  exact absurd (Except.error.inj h') (by decide)

/-- C8 (corrected): among the returned entities other than the player (index
0), no two blocking entities ever share a tile — every placement rechecks
`is_blocked` against the current collection, and the monsters of distinct
rooms sit in disjoint interiors. (The player itself can land on a blocking
monster: `c8_player_on_monster_cex`.) -/
theorem c8_blocking_disjoint_amended (player : Object) (t : List Object) (level : Nat)
    (rng : RNG) :
    ∃ m out, make_map (player :: t) level rng = Except.ok (m, out) ∧
      out.tail.Pairwise distinct_blocking := by
  obtain ⟨last, hlast, hmk⟩ := make_map_ok player t level rng
  obtain ⟨_, _, _, _, _, hpair⟩ := make_map_state_inv player level rng
  exact ⟨_, _, hmk, pairwise_append_nonblocking hpair rfl⟩

/-- The default entity for out-of-range indexing in closed statements. -/
def obj_default : Object := Object.new 0 0 ' ' "none" Color.white false

set_option maxHeartbeats 4000000 in
/-- C8's counterexample: with this randomness stream the first room is
`Rect(0,0,6,6)`, one orc is placed at its center (3,3) while the player
still sits at its pre-call position (10,10), and the player is then moved
onto (3,3) — two blocking entities (the player and the orc) share a tile
after the call returns. -/
theorem c8_player_on_monster_cex :
    ((resultObjects (make_map [player_w] 1 [0, 0, 0, 0, 1, 2, 2, 0])).getD 0
        obj_default).blocks = true ∧
    ((resultObjects (make_map [player_w] 1 [0, 0, 0, 0, 1, 2, 2, 0])).getD 1
        obj_default).blocks = true ∧
    ((resultObjects (make_map [player_w] 1 [0, 0, 0, 0, 1, 2, 2, 0])).getD 0
        obj_default).pos =
      ((resultObjects (make_map [player_w] 1 [0, 0, 0, 0, 1, 2, 2, 0])).getD 1
        obj_default).pos ∧
    ((resultObjects (make_map [player_w] 1 [0, 0, 0, 0, 1, 2, 2, 0])).getD 0
        obj_default).name = "player" ∧
    ((resultObjects (make_map [player_w] 1 [0, 0, 0, 0, 1, 2, 2, 0])).getD 1
        obj_default).name = "orc" := by
  decide

/-- C9 (confirmed): the result of a generation call does not depend on the
entry collection past index 0 (every other pre-call entity is discarded by
the truncation), and the returned collection is the entry player — with
only its position changed — followed by entities created during the call. -/
theorem c9_entities_frame (player : Object) (t1 t2 : List Object) (level : Nat) (rng : RNG) :
    make_map (player :: t1) level rng = make_map (player :: t2) level rng ∧
    ∃ m out x y rest, make_map (player :: t1) level rng = Except.ok (m, out) ∧
      out = Object.set_pos player x y :: rest := by
  have hfr : make_map (player :: t1) level rng = make_map (player :: t2) level rng := by
    show make_map_body player level rng = make_map_body player level rng
    rfl
  refine ⟨hfr, ?_⟩
  obtain ⟨last, hlast, hmk⟩ := make_map_ok player t1 level rng
  obtain ⟨_, _, _, hhead, _, _⟩ := make_map_state_inv player level rng
  rcases hhead with ⟨hre, _⟩ | ⟨f, rs, rest, hre, hobj⟩
  · exact absurd hre (make_map_state_rooms_ne_nil player level rng)
  · refine ⟨_, _, f.center.1, f.center.2,
      rest ++ [{ Object.new last.center.1 last.center.2 '<' "stairs" Color.white false with
        always_visible := true }], hmk, ?_⟩
    rw [hobj]
    rfl

/-- The strict-interior test of a room's center, as a decidable check. -/
def center_strictly_inside (r : Rect) : Bool :=
  decide (r.x1 < r.center.1) && decide (r.center.1 < r.x2) &&
    decide (r.y1 < r.center.2) && decide (r.center.2 < r.y2)

/-- C10 (confirmed): every accepted room's center lies strictly inside its
carved interior, and consequently the returned grid is passable both at the
player's final position (the head entity) and at the stairs' position (the
last entity). -/
theorem c10_centers_passable (player : Object) (t : List Object) (level : Nat) (rng : RNG) :
    (make_map_state player level rng).rooms.all center_strictly_inside = true ∧
    ∃ m out p s,
      make_map (player :: t) level rng = Except.ok (m, out) ∧
      out.head? = some p ∧ out.getLast? = some s ∧
      (m p.x p.y).blocked = false ∧ (m s.x s.y).blocked = false := by
  obtain ⟨last, hlast, hmk⟩ := make_map_ok player t level rng
  obtain ⟨_, hdims, hcent, hhead, _, _⟩ := make_map_state_inv player level rng
  constructor
  · rw [List.all_eq_true]
    intro r hr
    have h1 := center_strict_of_dims r (hdims r hr)
    unfold center_strictly_inside
    simp only [Bool.and_eq_true, decide_eq_true_eq]
    exact ⟨⟨⟨h1.1, h1.2.1⟩, h1.2.2.1⟩, h1.2.2.2⟩
  · rcases hhead with ⟨hre, _⟩ | ⟨f, rs, rest, hre, hobj⟩
    · exact absurd hre (make_map_state_rooms_ne_nil player level rng)
    · refine ⟨_, _, Object.set_pos player f.center.1 f.center.2,
        { Object.new last.center.1 last.center.2 '<' "stairs" Color.white false with
          always_visible := true }, hmk, ?_, ?_, ?_, ?_⟩
      · rw [hobj]
        rfl
      · exact List.getLast?_concat _
      · rw [show (Object.set_pos player f.center.1 f.center.2).x = f.center.1 from rfl,
          show (Object.set_pos player f.center.1 f.center.2).y = f.center.2 from rfl]
        exact hcent f (by rw [hre]; exact List.mem_cons_self f rs)
      · rw [show ({ Object.new last.center.1 last.center.2 '<' "stairs" Color.white false with
            always_visible := true } : Object).x = last.center.1 from rfl,
          show ({ Object.new last.center.1 last.center.2 '<' "stairs" Color.white false with
            always_visible := true } : Object).y = last.center.2 from rfl]
        exact hcent last (mem_of_getLast?_eq_some hlast)

end Roguelike
